import Mathlib

/-!
Actor engine: mailbox, drain loop and registry.

A shallow embedding of `src/main.cpp` (classes `Message`, `Actor`, `Engine`).

* A `Message` carries its sender and, because `Message::Apply` is virtual, the
  behaviour of the `Apply` override of its dynamic type.
* An `Actor` is its identity, its `messageQueue`, the stop flag of the worker's
  stop token and the control point of the worker thread inside `processLoop`.
  The field `applied` is a history variable: the messages on which `Receive`
  has been called, oldest first.
* The `Engine` is `actor_map` (an association list standing for the
  `unordered_map`) together with the 32-bit counter `next_id`.

Threads are modelled by interleaving: one step of a worker is one atomic action
of `processLoop` (the loop test, the critical section under `queueMutex`, or
the call of `Receive`).
-/

namespace ActorEngine

/-! ## Output -/

/-- The two output streams written by the program. -/
inductive Sink where
  | cout
  | cerr
  deriving DecidableEq, Repr

/-- One write to an output stream: the stream and the text of a whole
`operator<<` chain (or of the part of it that was evaluated). -/
abbrev Report := Sink × String

/-! ## Message -/

/-- `EXIT_SUCCESS` of `<cstdlib>`. -/
def EXIT_SUCCESS : Int := 0

/-- What a call of the virtual `Message::Apply` does: it returns a status code,
throws an object derived from `std::exception` (with its `what()` text), or
throws an object of any other type. -/
inductive ApplyOutcome where
  | returned (code : Int)
  | threwStd (what : String)
  | threwOther
  deriving DecidableEq, Repr

/-- A message object. `sender` is the private member set by the constructor.
`override` is `none` for an object of class `Message` itself and `some o` for
an object of a derived class whose `Apply` behaves as `o`. -/
structure Message where
  sender : Int
  override : Option ApplyOutcome
  deriving DecidableEq, Repr

namespace Message

/-- The constructor `Message(int sender_id)`. -/
def new (sender_id : Int) : Message :=
  { sender := sender_id, override := none }

/-- The private `Message::_apply`: `return EXIT_SUCCESS;`. -/
def _apply (_m : Message) : Int := EXIT_SUCCESS

/-- The public virtual `Message::Apply`: the base class returns `_apply()`,
a derived class runs its override. -/
def Apply (m : Message) : ApplyOutcome :=
  match m.override with
  | none => ApplyOutcome.returned m._apply
  | some o => o

end Message

/-! ## Actor -/

/-- Control point of the worker thread running `Actor::processLoop`. -/
inductive Pc where
  /-- About to evaluate `while (!st.stop_requested())`. -/
  | loopTest
  /-- Inside the loop body, at `cv.wait(lock, ...)` under `queueMutex`. -/
  | waiting
  /-- The lock is released and `msg` holds the dequeued message; about to run
  `Receive(*msg)`. -/
  | receiving (msg : Message)
  /-- The function `processLoop` has returned. -/
  | returned
  /-- An exception left `processLoop`. -/
  | terminated
  deriving DecidableEq, Repr

/-- An actor: the members `actor_ref` and `messageQueue`, the stop flag of the
worker's stop token, the control point of the worker, and the history of the
messages handed to `Receive`. -/
structure Actor where
  actor_ref : Int
  messageQueue : List Message
  stop_requested : Bool
  pc : Pc
  applied : List Message
  deriving DecidableEq, Repr

/-- How a call of `Actor::Receive` ends. -/
inductive ReceiveEnd where
  | normal
  | propagated
  deriving DecidableEq, Repr

namespace Actor

/-- The constructor `Actor(int id)`: empty queue, worker started at the top of
`processLoop`. -/
def new (id : Int) : Actor :=
  { actor_ref := id, messageQueue := [], stop_requested := false,
    pc := Pc.loopTest, applied := [] }

/-- The text written to `std::cout` before `m.Apply()` is evaluated (the
operands of `<<` are evaluated left to right). -/
def receivePrefix (actor_ref : Int) : String :=
  "Actor " ++ toString actor_ref ++ " received message. Apply result: "

/-- `Actor::Receive`: the reports written and whether the call returns
normally. The handler `catch (const std::exception&)` catches only objects
derived from `std::exception`. -/
def Receive (actor_ref : Int) (m : Message) : List Report × ReceiveEnd :=
  match m.Apply with
  | ApplyOutcome.returned code =>
      ([(Sink.cout, receivePrefix actor_ref ++ toString code ++ "\n")], ReceiveEnd.normal)
  | ApplyOutcome.threwStd what =>
      ([(Sink.cout, receivePrefix actor_ref),
        (Sink.cerr, "Exception in Actor " ++ toString actor_ref ++ ": " ++ what ++ "\n")],
       ReceiveEnd.normal)
  | ApplyOutcome.threwOther =>
      ([(Sink.cout, receivePrefix actor_ref)], ReceiveEnd.propagated)

/-- `Actor::SendMessage`: `messageQueue.push_back(std::move(m))`. -/
def SendMessage (a : Actor) (m : Message) : Actor :=
  { a with messageQueue := a.messageQueue ++ [m] }

/-- The call `worker.request_stop()` made by `~Actor`. -/
def request_stop (a : Actor) : Actor :=
  { a with stop_requested := true }

/-- One atomic action of the worker thread in `processLoop`.

* `loopTest`: `while (!st.stop_requested())` leaves the loop when a stop is
  requested, otherwise enters the body.
* `waiting`: the wait predicate is `!messageQueue.empty() || st.stop_requested()`;
  while it is false the thread stays blocked. Otherwise, with the queue empty
  (so the stop is requested) the function returns; with the queue non-empty the
  front is moved out and popped.
* `receiving msg`: `Receive(*msg)`, then back to the loop test, unless the
  exception leaves `Receive`. -/
def loopStep (a : Actor) : Actor × List Report :=
  match a.pc with
  | Pc.loopTest =>
      if a.stop_requested then ({ a with pc := Pc.returned }, [])
      else ({ a with pc := Pc.waiting }, [])
  | Pc.waiting =>
      match a.messageQueue with
      | [] =>
          if a.stop_requested then ({ a with pc := Pc.returned }, [])
          else (a, [])
      | msg :: rest =>
          ({ a with messageQueue := rest, pc := Pc.receiving msg }, [])
  | Pc.receiving msg =>
      match Receive a.actor_ref msg with
      | (out, ReceiveEnd.normal) =>
          ({ a with pc := Pc.loopTest, applied := a.applied ++ [msg] }, out)
      | (out, ReceiveEnd.propagated) =>
          ({ a with pc := Pc.terminated, applied := a.applied ++ [msg] }, out)
  | Pc.returned => (a, [])
  | Pc.terminated => (a, [])

/-- The message the worker has dequeued and not yet passed to `Receive`. -/
def inFlight (a : Actor) : List Message :=
  match a.pc with
  | Pc.receiving msg => [msg]
  | _ => []

/-- `processLoop` has returned. -/
def exited (a : Actor) : Bool :=
  a.pc == Pc.returned

end Actor

/-- The events of one actor: a call of `SendMessage`, the stop request of the
destructor, and one action of the worker. -/
inductive ActorEvent where
  | send (m : Message)
  | stop
  | loop
  deriving DecidableEq, Repr

namespace Actor

/-- The effect of one event on an actor. -/
def step (a : Actor) : ActorEvent → Actor
  | ActorEvent.send m => a.SendMessage m
  | ActorEvent.stop => a.request_stop
  | ActorEvent.loop => a.loopStep.1

/-- The effect of a sequence of events, oldest first. -/
def run (a : Actor) (evs : List ActorEvent) : Actor :=
  evs.foldl step a

/-- The reports written during a sequence of events. -/
def runOutput (a : Actor) : List ActorEvent → List Report
  | [] => []
  | ActorEvent.loop :: evs => a.loopStep.2 ++ runOutput a.loopStep.1 evs
  | ev :: evs => runOutput (a.step ev) evs

end Actor

/-- The messages passed to `SendMessage` in a sequence of events, in order. -/
def sentMessages : List ActorEvent → List Message
  | [] => []
  | ActorEvent.send m :: evs => m :: sentMessages evs
  | _ :: evs => sentMessages evs

/-- The sum `applied ++ inFlight ++ messageQueue`: every message the actor has
taken in, in the order the worker meets it. -/
def Actor.history (a : Actor) : List Message :=
  a.applied ++ a.inFlight ++ a.messageQueue

/-- The worker runs `fuel` actions; the reports are collected in order. -/
def Actor.drive : Nat → Actor → Actor × List Report
  | 0, a => (a, [])
  | fuel + 1, a =>
      let r := a.loopStep
      let r2 := Actor.drive fuel r.1
      (r2.1, r.2 ++ r2.2)

/-- The destructor `~Actor`: `worker.request_stop()`, then the `jthread`
member is destroyed, which joins the worker. Once the stop is requested the
worker needs at most four actions to leave `processLoop`. -/
def Actor.destroy (a : Actor) : Actor × List Report :=
  Actor.drive 4 a.request_stop

/-! ## Engine -/

/-- Two's-complement wrap of an integer into the range of the 32-bit `int`. -/
def wrapInt (x : Int) : Int :=
  (x + 2147483648) % 4294967296 - 2147483648

/-- `INT_MAX` for the 32-bit `int`. -/
def INT_MAX : Int := 2147483647

/-- The operation `map[id] = a` on the association list: the entry of `id` is
replaced when there is one, added otherwise. -/
def mapAssign (id : Int) (a : Actor) : List (Int × Actor) → List (Int × Actor)
  | [] => [(id, a)]
  | (k, v) :: rest =>
      if k = id then (id, a) :: rest else (k, v) :: mapAssign id a rest

/-- The operation `map.erase(id)` on the association list. -/
def mapErase (id : Int) (m : List (Int × Actor)) : List (Int × Actor) :=
  m.filter (fun kv => decide (kv.1 ≠ id))

/-- The engine: `actor_map` and the counter `next_id`. -/
structure Engine where
  actor_map : List (Int × Actor)
  next_id : Int
  deriving DecidableEq, Repr

namespace Engine

/-- A freshly constructed engine: empty map, `next_id = 0`. -/
def fresh : Engine :=
  { actor_map := [], next_id := 0 }

/-- The lookup `actor_map.find(id)`; `none` stands for `actor_map.end()`. -/
def find (e : Engine) (id : Int) : Option Actor :=
  e.actor_map.lookup id

/-- The identity `id` is a key of `actor_map`. -/
def registered (e : Engine) (id : Int) : Bool :=
  (e.find id).isSome

/-- The keys of `actor_map`. -/
def keys (e : Engine) : List Int :=
  e.actor_map.map Prod.fst

/-- `Engine::_spawn`: `int id = next_id++; actor_map[id] = make_unique<Actor>(id);
return id;`. The increment is taken in 32-bit arithmetic. -/
def _spawn (e : Engine) : Int × Engine :=
  let id := e.next_id
  (id, { actor_map := mapAssign id (Actor.new id) e.actor_map,
         next_id := wrapInt (e.next_id + 1) })

/-- The line written to `std::cerr` by the not-found branches. -/
def notFound (id : Int) : Report :=
  (Sink.cerr, "Actor " ++ toString id ++ " not found.\n")

/-- `Engine::_poison`: when `id` is found the entry is erased, which runs the
destructor of the actor; otherwise the not-found line is written. -/
def _poison (e : Engine) (id : Int) : Engine × List Report :=
  match e.find id with
  | some a => ({ e with actor_map := mapErase id e.actor_map }, a.destroy.2)
  | none => (e, [notFound id])

/-- `Engine::_send`: when `id` is found the message goes to `SendMessage` of
that actor; otherwise the not-found line is written. -/
def _send (e : Engine) (id : Int) (m : Message) : Engine × List Report :=
  match e.find id with
  | some a => ({ e with actor_map := mapAssign id (a.SendMessage m) e.actor_map }, [])
  | none => (e, [notFound id])

/-- The public `Engine::Spawn`. -/
def Spawn (e : Engine) : Int × Engine := e._spawn

/-- The public `Engine::Poison`. -/
def Poison (e : Engine) (id : Int) : Engine × List Report := e._poison id

/-- The public `Engine::Send`. -/
def Send (e : Engine) (id : Int) (m : Message) : Engine × List Report := e._send id m

/-- The worker of the actor registered under `id` performs one action. -/
def work (e : Engine) (id : Int) : Engine × List Report :=
  match e.find id with
  | some a => ({ e with actor_map := mapAssign id a.loopStep.1 e.actor_map }, a.loopStep.2)
  | none => (e, [])

end Engine

/-- The events of the whole system: the three calls of the public interface
and one action of the worker of an actor. -/
inductive EngineEvent where
  | spawn
  | send (id : Int) (m : Message)
  | poison (id : Int)
  | work (id : Int)
  deriving DecidableEq, Repr

namespace EngineEvent

/-- The event is a call of `Spawn`. -/
def isSpawn : EngineEvent → Bool
  | spawn => true
  | _ => false

/-- The event is a `Send` or an action of a worker. -/
def isTraffic : EngineEvent → Bool
  | send _ _ => true
  | work _ => true
  | _ => false

end EngineEvent

namespace Engine

/-- The effect of one event on the engine. -/
def step (e : Engine) : EngineEvent → Engine
  | EngineEvent.spawn => e.Spawn.2
  | EngineEvent.send id m => (e.Send id m).1
  | EngineEvent.poison id => (e.Poison id).1
  | EngineEvent.work id => (e.work id).1

/-- The effect of a sequence of events, oldest first. -/
def run (e : Engine) (evs : List EngineEvent) : Engine :=
  evs.foldl step e

/-- The identities returned by the calls of `Spawn` in a sequence of events,
in the order of the calls. -/
def spawned (e : Engine) : List EngineEvent → List Int
  | [] => []
  | EngineEvent.spawn :: evs => e.Spawn.1 :: spawned e.Spawn.2 evs
  | ev :: evs => spawned (e.step ev) evs

end Engine

/-- The messages passed to `Send` with target `id` in a sequence of events. -/
def sentTo (id : Int) : List EngineEvent → List Message
  | [] => []
  | EngineEvent.send k m :: evs => if k = id then m :: sentTo id evs else sentTo id evs
  | _ :: evs => sentTo id evs

/-- The demo scenario of `main` up to the two `Send` calls. -/
def mainEvents : List EngineEvent :=
  [EngineEvent.spawn, EngineEvent.spawn,
   EngineEvent.send 0 (Message.new 42), EngineEvent.send 1 (Message.new 42)]

/-- A run that exhausts the 32-bit counter: one `Spawn` (identity 0), one
`Send` to identity 0, then `2^32 - 1` further calls of `Spawn`. -/
def wrapEvents : List EngineEvent :=
  EngineEvent.spawn :: EngineEvent.send 0 (Message.new 42)
    :: List.replicate 4294967295 EngineEvent.spawn

/-! ## Lemmas on one actor -/

lemma history_SendMessage (a : Actor) (m : Message) :
    (a.SendMessage m).history = a.history ++ [m] := by
  simp [Actor.history, Actor.SendMessage, Actor.inFlight]

lemma history_request_stop (a : Actor) : a.request_stop.history = a.history := by
  simp [Actor.history, Actor.request_stop, Actor.inFlight]

lemma history_loopStep (a : Actor) : a.loopStep.1.history = a.history := by
  obtain ⟨ref, q, st, pc, ap⟩ := a
  cases pc with
  | loopTest => cases st <;> simp [Actor.loopStep, Actor.history, Actor.inFlight]
  | waiting =>
      cases q with
      | nil => cases st <;> simp [Actor.loopStep, Actor.history, Actor.inFlight]
      | cons m rest => simp [Actor.loopStep, Actor.history, Actor.inFlight]
  | receiving msg =>
      simp only [Actor.loopStep]
      rcases h : Actor.Receive ref msg with ⟨out, e⟩
      cases e <;> simp [Actor.history, Actor.inFlight]
  | returned => simp [Actor.loopStep]
  | terminated => simp [Actor.loopStep]

lemma history_step (a : Actor) (ev : ActorEvent) :
    (a.step ev).history = a.history ++ sentMessages [ev] := by
  cases ev with
  | send m => simp [Actor.step, history_SendMessage, sentMessages]
  | stop => simp [Actor.step, history_request_stop, sentMessages]
  | loop => simp [Actor.step, history_loopStep, sentMessages]

lemma sentMessages_cons (ev : ActorEvent) (evs : List ActorEvent) :
    sentMessages (ev :: evs) = sentMessages [ev] ++ sentMessages evs := by
  cases ev <;> simp [sentMessages]

lemma history_run (evs : List ActorEvent) :
    ∀ a : Actor, (a.run evs).history = a.history ++ sentMessages evs := by
  induction evs with
  | nil => intro a; simp [Actor.run, sentMessages]
  | cons ev evs ih =>
      intro a
      have h := ih (a.step ev)
      simp only [Actor.run, List.foldl_cons] at h ⊢
      rw [h, history_step, List.append_assoc, ← sentMessages_cons]

/-! ## Claims on one actor -/

/-- C1: FIFO delivery. After any sequence of `SendMessage` calls, stop requests
and worker actions on a new actor, the messages handed to `Receive`, followed
by the message in flight and the queue, are exactly the messages sent, in the
order sent; so the applied sequence is a prefix of the sent sequence.
`SendMessage` appends at the tail and the dequeue removes exactly the head. -/
theorem C1_fifo_delivery (id : Int) (evs : List ActorEvent) :
    ((Actor.new id).run evs).applied ++ ((Actor.new id).run evs).inFlight
        ++ ((Actor.new id).run evs).messageQueue = sentMessages evs
    ∧ ((Actor.new id).run evs).applied <+: sentMessages evs
    ∧ (∀ (a : Actor) (m : Message), (a.SendMessage m).messageQueue = a.messageQueue ++ [m])
    ∧ (∀ (a : Actor) (m : Message) (rest : List Message),
        ({ a with pc := Pc.waiting, messageQueue := m :: rest } : Actor).loopStep.1
          = { a with pc := Pc.receiving m, messageQueue := rest })
    ∧ (∀ (a : Actor) (m : Message),
        ({ a with pc := Pc.receiving m } : Actor).loopStep.1.applied = a.applied ++ [m]) := by
  have h := history_run evs (Actor.new id)
  have h0 : (Actor.new id).history = [] := by
    simp [Actor.history, Actor.new, Actor.inFlight]
  rw [h0, List.nil_append] at h
  refine ⟨?_, ?_, ?_, ?_, ?_⟩
  · exact h
  · refine ⟨((Actor.new id).run evs).inFlight ++ ((Actor.new id).run evs).messageQueue, ?_⟩
    rw [← h, Actor.history, List.append_assoc]
  · intro a m; rfl
  · intro a m rest; rfl
  · intro a m
    simp only [Actor.loopStep]
    rcases h : Actor.Receive a.actor_ref m with ⟨out, e⟩
    cases e <;> rfl

/-- C2 (as the code behaves): with two messages enqueued before the stop
request, the loop test `while (!st.stop_requested())` makes `processLoop`
return at once: both messages are still in `messageQueue` and none was applied.
The same happens after the first of three queued messages was applied. -/
theorem C2_stop_discards_pending :
    ((Actor.new 0).run [ActorEvent.send (Message.new 1), ActorEvent.send (Message.new 2),
        ActorEvent.stop, ActorEvent.loop]).pc = Pc.returned
    ∧ ((Actor.new 0).run [ActorEvent.send (Message.new 1), ActorEvent.send (Message.new 2),
        ActorEvent.stop, ActorEvent.loop]).messageQueue = [Message.new 1, Message.new 2]
    ∧ ((Actor.new 0).run [ActorEvent.send (Message.new 1), ActorEvent.send (Message.new 2),
        ActorEvent.stop, ActorEvent.loop]).applied = []
    ∧ ((Actor.new 0).run [ActorEvent.send (Message.new 1), ActorEvent.send (Message.new 2),
        ActorEvent.send (Message.new 3), ActorEvent.loop, ActorEvent.loop, ActorEvent.stop,
        ActorEvent.loop, ActorEvent.loop]).pc = Pc.returned
    ∧ ((Actor.new 0).run [ActorEvent.send (Message.new 1), ActorEvent.send (Message.new 2),
        ActorEvent.send (Message.new 3), ActorEvent.loop, ActorEvent.loop, ActorEvent.stop,
        ActorEvent.loop, ActorEvent.loop]).messageQueue = [Message.new 2, Message.new 3]
    ∧ ((Actor.new 0).run [ActorEvent.send (Message.new 1), ActorEvent.send (Message.new 2),
        ActorEvent.send (Message.new 3), ActorEvent.loop, ActorEvent.loop, ActorEvent.stop,
        ActorEvent.loop, ActorEvent.loop]).applied = [Message.new 1]
    ∧ (∀ a : Actor,
        ({ a with pc := Pc.loopTest, stop_requested := true } : Actor).loopStep.1.exited = true
        ∧ ({ a with pc := Pc.loopTest, stop_requested := true } : Actor).loopStep.1.messageQueue
            = a.messageQueue) := by
  refine ⟨?_, ?_, ?_, ?_, ?_, ?_, ?_⟩
  · decide
  · decide
  · decide
  · decide
  · decide
  · decide
  · intro a
    exact ⟨by simp [Actor.loopStep, Actor.exited], by simp [Actor.loopStep]⟩

/-- C10: `Message(s).Apply()` returns `EXIT_SUCCESS = 0` whatever the sender,
and `Receive` of actor `i` on such a message writes exactly one line to
`std::cout`, "Actor i received message. Apply result: 0", naming `i` and not
the sender, and returns normally. -/
theorem C10_apply_result_and_report (s i : Int) :
    (Message.new s).Apply = ApplyOutcome.returned 0
    ∧ EXIT_SUCCESS = 0
    ∧ (∀ s2 : Int, (Message.new s2).Apply = (Message.new s).Apply)
    ∧ Actor.Receive i (Message.new s)
        = ([(Sink.cout, "Actor " ++ toString i ++ " received message. Apply result: 0\n")],
           ReceiveEnd.normal)
    ∧ (∀ s2 : Int, Actor.Receive i (Message.new s2) = Actor.Receive i (Message.new s))
    ∧ (Actor.new i).runOutput
        [ActorEvent.send (Message.new s), ActorEvent.loop, ActorEvent.loop, ActorEvent.loop]
        = [(Sink.cout, "Actor " ++ toString i ++ " received message. Apply result: 0\n")] := by
  have hR : Actor.Receive i (Message.new s)
      = ([(Sink.cout, "Actor " ++ toString i ++ " received message. Apply result: 0\n")],
         ReceiveEnd.normal) := by
    simp [Actor.Receive, Message.Apply, Message.new, Message._apply, EXIT_SUCCESS,
      Actor.receivePrefix, String.append_assoc]
    rfl
  refine ⟨rfl, rfl, fun _ => rfl, hR, fun _ => rfl, ?_⟩
  simp [Actor.runOutput, Actor.step, Actor.SendMessage, Actor.new, Actor.loopStep, hR]

lemma lookup_mapAssign_same (id : Int) (a : Actor) (m : List (Int × Actor)) :
    (mapAssign id a m).lookup id = some a := by
  induction m with
  | nil => simp [mapAssign, List.lookup]
  | cons kv rest ih =>
      obtain ⟨k, v⟩ := kv
      by_cases h : k = id
      · simp [mapAssign, h, List.lookup]
      · have h2 : (id == k) = false := by simpa using fun h3 : id = k => h h3.symm
        simp [mapAssign, h, List.lookup, h2, ih]

lemma lookup_mapAssign_ne (id k : Int) (a : Actor) (m : List (Int × Actor)) (hk : k ≠ id) :
    (mapAssign id a m).lookup k = m.lookup k := by
  induction m with
  | nil =>
      have h2 : (k == id) = false := by simpa using hk
      simp [mapAssign, List.lookup, h2]
  | cons kv rest ih =>
      obtain ⟨k2, v⟩ := kv
      by_cases h : k2 = id
      · subst h
        have h2 : (k == k2) = false := by simpa using hk
        simp [mapAssign, List.lookup, h2]
      · by_cases h3 : k = k2
        · subst h3
          simp [mapAssign, h, List.lookup]
        · have h2 : (k == k2) = false := by simpa using h3
          simp [mapAssign, h, List.lookup, h2, ih]

lemma lookup_mapErase_same (id : Int) (m : List (Int × Actor)) :
    (mapErase id m).lookup id = none := by
  induction m with
  | nil => simp [mapErase, List.lookup]
  | cons kv rest ih =>
      obtain ⟨k, v⟩ := kv
      by_cases h : k = id
      · simpa [mapErase, h] using ih
      · have h2 : (id == k) = false := by simpa using fun h3 : id = k => h h3.symm
        have ih2 : List.lookup id (List.filter (fun kv => decide (kv.1 ≠ id)) rest) = none := ih
        simp [mapErase, h, List.lookup, h2]
        simpa using ih2

lemma lookup_mapErase_ne (id k : Int) (m : List (Int × Actor)) (hk : k ≠ id) :
    (mapErase id m).lookup k = m.lookup k := by
  induction m with
  | nil => simp [mapErase, List.lookup]
  | cons kv rest ih =>
      obtain ⟨k2, v⟩ := kv
      have ih2 : List.lookup k (List.filter (fun kv => decide (kv.1 ≠ id)) rest)
          = List.lookup k rest := ih
      by_cases h : k2 = id
      · subst h
        have h2 : (k == k2) = false := by simpa using hk
        simp [mapErase, List.lookup, h2]
        simpa using ih2
      · by_cases h3 : k = k2
        · subst h3
          simp [mapErase, h, List.lookup]
        · have h2 : (k == k2) = false := by simpa using h3
          simp [mapErase, h, List.lookup, h2]
          simpa using ih2

lemma keys_mapAssign_of_lookup (id : Int) (a b : Actor) (m : List (Int × Actor))
    (h : m.lookup id = some b) : (mapAssign id a m).map Prod.fst = m.map Prod.fst := by
  induction m with
  | nil => simp [List.lookup] at h
  | cons kv rest ih =>
      obtain ⟨k, v⟩ := kv
      by_cases hk : k = id
      · simp [mapAssign, hk]
      · have h2 : (id == k) = false := by simpa using fun h3 : id = k => hk h3.symm
        simp [List.lookup, h2] at h
        simp [mapAssign, hk, ih h]

/-! ## Lemmas on the engine operations -/

lemma find_Send_same (e : Engine) (id : Int) (m : Message) (a : Actor)
    (h : e.find id = some a) : (e.Send id m).1.find id = some (a.SendMessage m) := by
  simp only [Engine.Send, Engine._send, h]
  exact lookup_mapAssign_same id _ _

lemma find_Send_ne (e : Engine) (id k : Int) (m : Message) (hk : k ≠ id) :
    (e.Send id m).1.find k = e.find k := by
  simp only [Engine.Send, Engine._send]
  cases h : e.find id with
  | none => rfl
  | some a => exact lookup_mapAssign_ne id k _ _ hk

lemma Send_of_find_none (e : Engine) (id : Int) (m : Message) (h : e.find id = none) :
    e.Send id m = (e, [Engine.notFound id]) := by
  simp only [Engine.Send, Engine._send, h]

lemma next_id_Send (e : Engine) (id : Int) (m : Message) :
    (e.Send id m).1.next_id = e.next_id := by
  simp only [Engine.Send, Engine._send]
  cases h : e.find id <;> rfl

lemma find_work_same (e : Engine) (id : Int) (a : Actor) (h : e.find id = some a) :
    (e.work id).1.find id = some a.loopStep.1 := by
  simp only [Engine.work, h]
  exact lookup_mapAssign_same id _ _

lemma find_work_ne (e : Engine) (id k : Int) (hk : k ≠ id) :
    (e.work id).1.find k = e.find k := by
  simp only [Engine.work]
  cases h : e.find id with
  | none => rfl
  | some a => exact lookup_mapAssign_ne id k _ _ hk

lemma work_of_find_none (e : Engine) (id : Int) (h : e.find id = none) :
    (e.work id).1 = e := by
  simp only [Engine.work, h]

lemma next_id_work (e : Engine) (id : Int) : (e.work id).1.next_id = e.next_id := by
  simp only [Engine.work]
  cases h : e.find id <;> rfl

lemma find_Poison_same (e : Engine) (id : Int) : (e.Poison id).1.find id = none := by
  simp only [Engine.Poison, Engine._poison]
  cases h : e.find id with
  | none => exact h
  | some a => exact lookup_mapErase_same id _

lemma find_Poison_ne (e : Engine) (id k : Int) (hk : k ≠ id) :
    (e.Poison id).1.find k = e.find k := by
  simp only [Engine.Poison, Engine._poison]
  cases h : e.find id with
  | none => rfl
  | some a => exact lookup_mapErase_ne id k _ hk

lemma Poison_of_find_none (e : Engine) (id : Int) (h : e.find id = none) :
    e.Poison id = (e, [Engine.notFound id]) := by
  simp only [Engine.Poison, Engine._poison, h]

lemma next_id_Poison (e : Engine) (id : Int) : (e.Poison id).1.next_id = e.next_id := by
  simp only [Engine.Poison, Engine._poison]
  cases h : e.find id <;> rfl

lemma find_Spawn_same (e : Engine) : e.Spawn.2.find e.next_id = some (Actor.new e.next_id) := by
  simp only [Engine.Spawn, Engine._spawn]
  exact lookup_mapAssign_same _ _ _

lemma find_Spawn_ne (e : Engine) (k : Int) (hk : k ≠ e.next_id) :
    e.Spawn.2.find k = e.find k := by
  simp only [Engine.Spawn, Engine._spawn]
  exact lookup_mapAssign_ne _ k _ _ hk

lemma registered_eq_false_iff (e : Engine) (id : Int) :
    e.registered id = false ↔ e.find id = none := by
  simp [Engine.registered]

lemma run_cons (e : Engine) (ev : EngineEvent) (evs : List EngineEvent) :
    e.run (ev :: evs) = (e.step ev).run evs := rfl

lemma run_nil (e : Engine) : e.run [] = e := rfl

lemma run_cons_cons (e : Engine) (ev1 ev2 : EngineEvent) (evs : List EngineEvent) :
    e.run (ev1 :: ev2 :: evs) = (e.run [ev1, ev2]).run evs := rfl

/-- A `Send` or a worker action keeps a registered actor registered and adds
to its history exactly the message sent to it, if any. -/
lemma history_traffic_step (e : Engine) (ev : EngineEvent) (h : ev.isTraffic = true)
    (B : Int) (b : Actor) (hB : e.find B = some b) :
    ∃ b2, (e.step ev).find B = some b2 ∧ b2.history = b.history ++ sentTo B [ev] := by
  cases ev with
  | spawn => simp [EngineEvent.isTraffic] at h
  | poison id => simp [EngineEvent.isTraffic] at h
  | send id m =>
      by_cases hk : B = id
      · subst hk
        refine ⟨b.SendMessage m, find_Send_same e B m b hB, ?_⟩
        simp [history_SendMessage, sentTo]
      · refine ⟨b, ?_, ?_⟩
        · simpa [Engine.step, hB] using find_Send_ne e id B m hk
        · have hk2 : ¬ id = B := fun h3 => hk h3.symm
          simp [sentTo, hk2]
  | work id =>
      by_cases hk : B = id
      · subst hk
        refine ⟨b.loopStep.1, find_work_same e B b hB, ?_⟩
        simp [history_loopStep, sentTo]
      · refine ⟨b, ?_, ?_⟩
        · simpa [Engine.step, hB] using find_work_ne e id B hk
        · simp [sentTo]

lemma sentTo_cons (B : Int) (ev : EngineEvent) (evs : List EngineEvent) :
    sentTo B (ev :: evs) = sentTo B [ev] ++ sentTo B evs := by
  cases ev with
  | send k m => by_cases h : k = B <;> simp [sentTo, h]
  | spawn => simp [sentTo]
  | poison k => simp [sentTo]
  | work k => simp [sentTo]

lemma history_traffic_run (evs : List EngineEvent) :
    ∀ (e : Engine), (∀ ev ∈ evs, EngineEvent.isTraffic ev = true) →
      ∀ (B : Int) (b : Actor), e.find B = some b →
        ∃ b2, (e.run evs).find B = some b2 ∧ b2.history = b.history ++ sentTo B evs := by
  induction evs with
  | nil => intro e _ B b hB; exact ⟨b, hB, by simp [sentTo]⟩
  | cons ev evs ih =>
      intro e h B b hB
      obtain ⟨b1, hb1, hh1⟩ :=
        history_traffic_step e ev (h ev (List.mem_cons_self _ _)) B b hB
      obtain ⟨b2, hb2, hh2⟩ :=
        ih (e.step ev) (fun x hx => h x (List.mem_cons_of_mem _ hx)) B b1 hb1
      refine ⟨b2, by rw [run_cons]; exact hb2, ?_⟩
      rw [hh2, hh1, List.append_assoc, ← sentTo_cons]

/-- An event other than `Spawn` never registers an identity. -/
lemma find_none_step (e : Engine) (ev : EngineEvent) (h : ev.isSpawn = false)
    (id : Int) (hid : e.find id = none) : (e.step ev).find id = none := by
  cases ev with
  | spawn => simp [EngineEvent.isSpawn] at h
  | send k m =>
      by_cases hk : id = k
      · subst hk
        simp only [Engine.step, Send_of_find_none e id m hid]
        exact hid
      · simp only [Engine.step]
        rw [find_Send_ne e k id m hk]
        exact hid
  | poison k =>
      by_cases hk : id = k
      · subst hk
        exact find_Poison_same e id
      · simp only [Engine.step]
        rw [find_Poison_ne e k id hk]
        exact hid
  | work k =>
      by_cases hk : id = k
      · subst hk
        simp only [Engine.step, work_of_find_none e id hid]
        exact hid
      · simp only [Engine.step]
        rw [find_work_ne e k id hk]
        exact hid

lemma find_none_run (evs : List EngineEvent) :
    ∀ (e : Engine), (∀ ev ∈ evs, EngineEvent.isSpawn ev = false) →
      ∀ id : Int, e.find id = none → (e.run evs).find id = none := by
  induction evs with
  | nil => intro e _ id hid; exact hid
  | cons ev evs ih =>
      intro e h id hid
      rw [run_cons]
      exact ih (e.step ev) (fun x hx => h x (List.mem_cons_of_mem _ hx)) id
        (find_none_step e ev (h ev (List.mem_cons_self _ _)) id hid)

lemma not_mem_keys_mapErase (id : Int) (m : List (Int × Actor)) :
    id ∉ (mapErase id m).map Prod.fst := by
  simp [mapErase, List.mem_filter]

/-! ## Claims on the engine -/

/-- C3: isolation. For distinct registered identities `A` and `B`,
`Send(A, m)` appends `m` at the tail of the queue of `A` and leaves the actor
of `B`, the keys of `actor_map` and `next_id` unchanged. For every interleaving
of sends and worker actions, what each of the two actors has applied, holds in
flight and has queued is what it had before followed by exactly the messages
sent to its own identity, in order. -/
theorem C3_isolation (e : Engine) (A B : Int) (a b : Actor) (m : Message)
    (evs : List EngineEvent) (hAB : A ≠ B)
    (hA : e.find A = some a) (hB : e.find B = some b)
    (hevs : ∀ ev ∈ evs, EngineEvent.isTraffic ev = true) :
    (e.Send A m).1.find A = some { a with messageQueue := a.messageQueue ++ [m] }
    ∧ (e.Send A m).1.find B = some b
    ∧ (e.Send A m).1.keys = e.keys
    ∧ (e.Send A m).1.next_id = e.next_id
    ∧ (e.Send A m).2 = []
    ∧ (∃ a2 b2, (e.run evs).find A = some a2 ∧ (e.run evs).find B = some b2
        ∧ a2.applied ++ a2.inFlight ++ a2.messageQueue
            = a.applied ++ a.inFlight ++ a.messageQueue ++ sentTo A evs
        ∧ b2.applied ++ b2.inFlight ++ b2.messageQueue
            = b.applied ++ b.inFlight ++ b.messageQueue ++ sentTo B evs) := by
  refine ⟨find_Send_same e A m a hA, ?_, ?_, next_id_Send e A m, ?_, ?_⟩
  · rw [find_Send_ne e A B m (fun h => hAB h.symm)]
    exact hB
  · simp only [Engine.Send, Engine._send, hA, Engine.keys]
    exact keys_mapAssign_of_lookup A _ a _ hA
  · simp only [Engine.Send, Engine._send, hA]
  · obtain ⟨a2, ha2, hha⟩ := history_traffic_run evs e hevs A a hA
    obtain ⟨b2, hb2, hhb⟩ := history_traffic_run evs e hevs B b hB
    exact ⟨a2, b2, ha2, hb2, hha, hhb⟩

/-- A witness for `C3_isolation`: two spawned actors and an interleaving of
sends and worker actions. -/
theorem C3_isolation_witness :
    ((Engine.fresh.run [EngineEvent.spawn, EngineEvent.spawn]).Send 0 (Message.new 42)).1.find 1
      = some (Actor.new 1) :=
  (C3_isolation (Engine.fresh.run [EngineEvent.spawn, EngineEvent.spawn]) 0 1
    (Actor.new 0) (Actor.new 1) (Message.new 42)
    [EngineEvent.send 0 (Message.new 5), EngineEvent.work 0, EngineEvent.send 1 (Message.new 6)]
    (by decide) (by decide) (by decide) (by decide)).2.1

/-- C4: `Send` to an identity that is not registered writes
"Actor <id> not found." to `std::cerr` and leaves the engine (the map, every
queue, `next_id`) as it was; and the not-found line is written exactly when the
identity is not registered. -/
theorem C4_send_unknown_is_reported_noop (e : Engine) (id : Int) (m : Message) :
    (e.registered id = false →
        e.Send id m = (e, [(Sink.cerr, "Actor " ++ toString id ++ " not found.\n")]))
    ∧ ((e.Send id m).2 = [(Sink.cerr, "Actor " ++ toString id ++ " not found.\n")]
        ↔ e.registered id = false)
    ∧ (e.registered id = true → (e.Send id m).2 = []) := by
  refine ⟨?_, ?_, ?_⟩
  · intro h
    exact Send_of_find_none e id m ((registered_eq_false_iff e id).1 h)
  · cases h : e.find id with
    | none => simp [Engine.Send, Engine._send, h, Engine.registered, Engine.notFound]
    | some a => simp [Engine.Send, Engine._send, h, Engine.registered]
  · intro h
    cases h2 : e.find id with
    | none => simp [Engine.registered, h2] at h
    | some a => simp [Engine.Send, Engine._send, h2]

/-- A witness for `C4_send_unknown_is_reported_noop`. -/
theorem C4_send_unknown_is_reported_noop_witness :
    (Engine.fresh.run [EngineEvent.spawn]).Send 5 (Message.new 42)
      = (Engine.fresh.run [EngineEvent.spawn],
          [(Sink.cerr, "Actor " ++ toString (5 : Int) ++ " not found.\n")]) :=
  (C4_send_unknown_is_reported_noop (Engine.fresh.run [EngineEvent.spawn]) 5
    (Message.new 42)).1 (by decide)

/-- C5: `Poison` of a registered identity removes that key and nothing else:
the identity is no longer registered, every other identity keeps its actor
unchanged, `next_id` is unchanged, and after any further events other than
`Spawn` a `Send` to the identity takes the not-found branch and changes
nothing. -/
theorem C5_poison_removes_only_id (e : Engine) (id : Int) (a : Actor) (m : Message)
    (evs : List EngineEvent) (h : e.find id = some a)
    (hevs : ∀ ev ∈ evs, EngineEvent.isSpawn ev = false) :
    (e.Poison id).1.registered id = false
    ∧ id ∉ (e.Poison id).1.keys
    ∧ (∀ k : Int, k ≠ id → (e.Poison id).1.find k = e.find k)
    ∧ (e.Poison id).1.next_id = e.next_id
    ∧ ((e.Poison id).1.run evs).Send id m
        = ((e.Poison id).1.run evs, [(Sink.cerr, "Actor " ++ toString id ++ " not found.\n")]) := by
  refine ⟨?_, ?_, ?_, next_id_Poison e id, ?_⟩
  · exact (registered_eq_false_iff _ id).2 (find_Poison_same e id)
  · simp only [Engine.Poison, Engine._poison, h, Engine.keys]
    exact not_mem_keys_mapErase id _
  · intro k hk
    exact find_Poison_ne e id k hk
  · exact Send_of_find_none _ id m
      (find_none_run evs _ hevs id (find_Poison_same e id))

/-- A witness for `C5_poison_removes_only_id`: the demo scenario, then
`Poison(0)`, then traffic and a second `Poison`. -/
theorem C5_poison_removes_only_id_witness :
    (((Engine.fresh.run mainEvents).Poison 0).1.run
        [EngineEvent.work 1, EngineEvent.send 0 (Message.new 3), EngineEvent.poison 0]).Send 0
        (Message.new 7)
      = (((Engine.fresh.run mainEvents).Poison 0).1.run
          [EngineEvent.work 1, EngineEvent.send 0 (Message.new 3), EngineEvent.poison 0],
         [(Sink.cerr, "Actor " ++ toString (0 : Int) ++ " not found.\n")]) :=
  (C5_poison_removes_only_id (Engine.fresh.run mainEvents) 0
    ((Actor.new 0).SendMessage (Message.new 42)) (Message.new 7)
    [EngineEvent.work 1, EngineEvent.send 0 (Message.new 3), EngineEvent.poison 0]
    (by decide) (by decide)).2.2.2.2

/-- C6: `Poison` of an identity that is not registered writes
"Actor <id> not found." and leaves the engine unchanged; so a second
`Poison(id)` right after a first one reports not-found and yields the same
engine as the first alone. -/
theorem C6_poison_not_found_idempotent (e : Engine) (id : Int) :
    (e.registered id = false →
        e.Poison id = (e, [(Sink.cerr, "Actor " ++ toString id ++ " not found.\n")]))
    ∧ ((e.Poison id).1.Poison id).1 = (e.Poison id).1
    ∧ ((e.Poison id).1.Poison id).2
        = [(Sink.cerr, "Actor " ++ toString id ++ " not found.\n")] := by
  have h2 := Poison_of_find_none (e.Poison id).1 id (find_Poison_same e id)
  refine ⟨?_, ?_, ?_⟩
  · intro h
    exact Poison_of_find_none e id ((registered_eq_false_iff e id).1 h)
  · rw [h2]
  · rw [h2]; rfl

/-- A witness for `C6_poison_not_found_idempotent`: an identity never spawned. -/
theorem C6_poison_not_found_idempotent_witness :
    (Engine.fresh.run mainEvents).Poison 9
      = (Engine.fresh.run mainEvents,
          [(Sink.cerr, "Actor " ++ toString (9 : Int) ++ " not found.\n")]) :=
  (C6_poison_not_found_idempotent (Engine.fresh.run mainEvents) 9).1 (by decide)

/-! ## The identity counter -/

lemma wrapInt_range (x : Int) : -2147483648 ≤ wrapInt x ∧ wrapInt x ≤ 2147483647 := by
  unfold wrapInt; omega

lemma wrapInt_of_range (x : Int) (h1 : -2147483648 ≤ x) (h2 : x ≤ 2147483647) :
    wrapInt x = x := by
  unfold wrapInt; omega

lemma wrapInt_succ_add (x : Int) (j : Nat) :
    wrapInt (wrapInt (x + 1) + (j : Int)) = wrapInt (x + ((j + 1 : Nat) : Int)) := by
  unfold wrapInt; push_cast; omega

lemma next_id_Spawn (e : Engine) : e.Spawn.2.next_id = wrapInt (e.next_id + 1) := rfl

lemma Spawn_fst (e : Engine) : e.Spawn.1 = e.next_id := rfl

/-- Repeated `Spawn`: the counter advances modulo `2^32`, and an actor whose
identity is not met by the counter stays as it is. -/
lemma run_replicate_spawn (n : Nat) :
    ∀ (e : Engine) (k : Int) (a : Actor),
      -2147483648 ≤ e.next_id → e.next_id ≤ 2147483647 → e.find k = some a →
      (∀ j : Nat, j < n → wrapInt (e.next_id + (j : Int)) ≠ k) →
      (e.run (List.replicate n EngineEvent.spawn)).find k = some a
      ∧ (e.run (List.replicate n EngineEvent.spawn)).next_id = wrapInt (e.next_id + (n : Int)) := by
  induction n with
  | zero =>
      intro e k a h1 h2 hk _
      refine ⟨hk, ?_⟩
      simp only [List.replicate, Engine.run, List.foldl_nil]
      rw [wrapInt_of_range] <;> simp <;> omega
  | succ n ih =>
      intro e k a h1 h2 hk hj
      have h0 : k ≠ e.next_id := by
        have := hj 0 (Nat.succ_pos n)
        rw [wrapInt_of_range] at this
        · intro h; apply this; simp [h]
        · simp; omega
        · simp; omega
      have hr := wrapInt_range (e.next_id + 1)
      have hfind : e.Spawn.2.find k = some a := by
        rw [find_Spawn_ne e k h0]; exact hk
      have hrest : ∀ j : Nat, j < n → wrapInt (e.Spawn.2.next_id + (j : Int)) ≠ k := by
        intro j hjn
        rw [next_id_Spawn, wrapInt_succ_add]
        exact hj (j + 1) (Nat.succ_lt_succ hjn)
      obtain ⟨r1, r2⟩ := ih e.Spawn.2 k a (by rw [next_id_Spawn]; exact hr.1)
        (by rw [next_id_Spawn]; exact hr.2) hfind hrest
      have hrun : e.run (List.replicate (n + 1) EngineEvent.spawn)
          = e.Spawn.2.run (List.replicate n EngineEvent.spawn) := rfl
      rw [hrun]
      refine ⟨r1, ?_⟩
      rw [r2, next_id_Spawn]
      have := wrapInt_succ_add e.next_id n
      simpa using this

/-- C7 (as the code behaves): after one `Spawn`, one `Send` to identity 0 and
`2^32 - 1` further `Spawn` calls the 32-bit counter is back at 0 while actor 0
is still registered with the message in its queue; the next `Spawn` returns the
live identity 0 and replaces that actor by a new one with an empty queue. -/
theorem C7_spawn_reuses_live_identity_after_wrap :
    (Engine.fresh.run wrapEvents).next_id = 0
    ∧ (Engine.fresh.run wrapEvents).find 0 = some ((Actor.new 0).SendMessage (Message.new 42))
    ∧ (Engine.fresh.run wrapEvents).registered 0 = true
    ∧ (Engine.fresh.run wrapEvents).Spawn.1 = 0
    ∧ (Engine.fresh.run wrapEvents).Spawn.2.find 0 = some (Actor.new 0) := by
  have hsplit : Engine.fresh.run wrapEvents
      = (Engine.fresh.run [EngineEvent.spawn, EngineEvent.send 0 (Message.new 42)]).run
          (List.replicate 4294967295 EngineEvent.spawn) := by
    unfold wrapEvents
    exact run_cons_cons _ _ _ _
  have hn : (Engine.fresh.run [EngineEvent.spawn, EngineEvent.send 0 (Message.new 42)]).next_id
      = 1 := by decide
  have hf : (Engine.fresh.run [EngineEvent.spawn, EngineEvent.send 0 (Message.new 42)]).find 0
      = some ((Actor.new 0).SendMessage (Message.new 42)) := by decide
  obtain ⟨r1, r2⟩ := run_replicate_spawn 4294967295
    (Engine.fresh.run [EngineEvent.spawn, EngineEvent.send 0 (Message.new 42)]) 0
    ((Actor.new 0).SendMessage (Message.new 42))
    (by rw [hn]; decide) (by rw [hn]; decide) hf
    (by intro j hj; rw [hn]; unfold wrapInt; omega)
  rw [hn] at r2
  have h0 : (Engine.fresh.run wrapEvents).next_id = 0 := by
    rw [hsplit, r2]; unfold wrapInt; omega
  have hfind : (Engine.fresh.run wrapEvents).find 0
      = some ((Actor.new 0).SendMessage (Message.new 42)) := by
    rw [hsplit]; exact r1
  refine ⟨h0, hfind, ?_, ?_, ?_⟩
  · simp [Engine.registered, hfind]
  · rw [Spawn_fst, h0]
  · have := find_Spawn_same (Engine.fresh.run wrapEvents)
    rw [h0] at this
    exact this

/-! ## The identities returned by `Spawn` -/

lemma next_id_step (e : Engine) (ev : EngineEvent) (h : ev.isSpawn = false) :
    (e.step ev).next_id = e.next_id := by
  cases ev with
  | spawn => simp [EngineEvent.isSpawn] at h
  | send k m => exact next_id_Send e k m
  | poison k => exact next_id_Poison e k
  | work k => exact next_id_work e k

lemma spawned_cons_spawn (e : Engine) (evs : List EngineEvent) :
    e.spawned (EngineEvent.spawn :: evs) = e.next_id :: e.Spawn.2.spawned evs := rfl

lemma spawned_cons_other (e : Engine) (ev : EngineEvent) (evs : List EngineEvent)
    (h : ev.isSpawn = false) : e.spawned (ev :: evs) = (e.step ev).spawned evs := by
  cases ev with
  | spawn => simp [EngineEvent.isSpawn] at h
  | send k m => rfl
  | poison k => rfl
  | work k => rfl

lemma isSpawn_eq_true (ev : EngineEvent) (h : ev.isSpawn = true) : ev = EngineEvent.spawn := by
  cases ev <;> simp [EngineEvent.isSpawn] at h ⊢

/-- The `n`-th identity returned is the counter advanced `n` times. -/
lemma spawned_getElem (evs : List EngineEvent) :
    ∀ (e : Engine), -2147483648 ≤ e.next_id → e.next_id ≤ 2147483647 →
      ∀ n : Nat, n < (e.spawned evs).length →
        (e.spawned evs)[n]? = some (wrapInt (e.next_id + (n : Int))) := by
  induction evs with
  | nil => intro e _ _ n hn; simp [Engine.spawned] at hn
  | cons ev evs ih =>
      intro e h1 h2 n hn
      cases hs : ev.isSpawn with
      | false =>
          rw [spawned_cons_other e ev evs hs] at hn ⊢
          have := ih (e.step ev) (by rw [next_id_step e ev hs]; exact h1)
            (by rw [next_id_step e ev hs]; exact h2) n hn
          rw [next_id_step e ev hs] at this
          exact this
      | true =>
          rw [isSpawn_eq_true ev hs] at hn ⊢
          rw [spawned_cons_spawn] at hn ⊢
          cases n with
          | zero =>
              simp only [List.getElem?_cons_zero]
              rw [wrapInt_of_range] <;> simp <;> omega
          | succ n =>
              have hr := wrapInt_range (e.next_id + 1)
              have hlen : n < (e.Spawn.2.spawned evs).length := by
                simpa using hn
              have := ih e.Spawn.2 (by rw [next_id_Spawn]; exact hr.1)
                (by rw [next_id_Spawn]; exact hr.2) n hlen
              rw [next_id_Spawn, wrapInt_succ_add] at this
              simpa using this

lemma spawned_append (pre : List EngineEvent) :
    ∀ (e : Engine) (post : List EngineEvent),
      e.spawned (pre ++ post) = e.spawned pre ++ (e.run pre).spawned post := by
  induction pre with
  | nil => intro e post; rfl
  | cons ev pre ih =>
      intro e post
      cases hs : ev.isSpawn with
      | false =>
          rw [List.cons_append, spawned_cons_other e ev _ hs, spawned_cons_other e ev _ hs,
            run_cons, ih]
      | true =>
          rw [isSpawn_eq_true ev hs, List.cons_append, spawned_cons_spawn, spawned_cons_spawn,
            run_cons, ih]
          rfl

/-- An identity registered after a run was registered before it or was
returned by a `Spawn` of the run. -/
lemma registered_run (evs : List EngineEvent) :
    ∀ (e : Engine) (id : Int), (e.run evs).registered id = true →
      e.registered id = true ∨ id ∈ e.spawned evs := by
  induction evs with
  | nil => intro e id h; exact Or.inl h
  | cons ev evs ih =>
      intro e id h
      rw [run_cons] at h
      cases hs : ev.isSpawn with
      | false =>
          rw [spawned_cons_other e ev evs hs]
          rcases ih (e.step ev) id h with h1 | h1
          · left
            by_contra hc
            have hnone : e.find id = none :=
              (registered_eq_false_iff e id).1 (by simpa using hc)
            have := find_none_step e ev hs id hnone
            simp [Engine.registered, this] at h1
          · exact Or.inr h1
      | true =>
          rw [isSpawn_eq_true ev hs] at h ⊢
          rw [spawned_cons_spawn]
          rcases ih _ id h with h1 | h1
          · by_cases hk : id = e.next_id
            · right; simp [hk]
            · left
              have : (e.step EngineEvent.spawn).find id = e.find id := find_Spawn_ne e id hk
              simpa [Engine.registered, this] using h1
          · right
            exact List.mem_cons_of_mem _ h1

/-- C8: on a fresh engine, whatever `Send`, `Poison` and worker events are
interleaved, the `n`-th call of `Spawn` (counting from 0, `n` within the `int`
range) returns `n`; every identity returned earlier is smaller; an identity
that was registered when it was poisoned is not the one returned by a later
`Spawn`; and the two spawns of the demo scenario return 0 and 1. -/
theorem C8_spawn_returns_counter (evs : List EngineEvent) (n : Nat)
    (hn : n < (Engine.fresh.spawned evs).length) (hint : (n : Int) ≤ INT_MAX) :
    (Engine.fresh.spawned evs)[n]? = some (n : Int)
    ∧ (∀ (j : Nat) (r : Int), j < n → (Engine.fresh.spawned evs)[j]? = some r → r < (n : Int))
    ∧ (∀ (pre post : List EngineEvent) (id : Int),
        evs = pre ++ EngineEvent.poison id :: post →
        (Engine.fresh.run pre).registered id = true →
        (Engine.fresh.spawned pre).length ≤ n → id ≠ (n : Int))
    ∧ Engine.fresh.spawned mainEvents = [0, 1] := by
  have hmax : (n : Int) ≤ 2147483647 := hint
  have hget : ∀ (l : List EngineEvent) (j : Nat), j < (Engine.fresh.spawned l).length → j ≤ n →
      (Engine.fresh.spawned l)[j]? = some (j : Int) := by
    intro l j hj hjn
    have h := spawned_getElem l Engine.fresh (by decide) (by decide) j hj
    have h0 : Engine.fresh.next_id = 0 := rfl
    rw [h0, wrapInt_of_range] at h
    · simpa using h
    · omega
    · omega
  refine ⟨hget evs n hn (le_refl n), ?_, ?_, by decide⟩
  · intro j r hj hr
    rw [hget evs j (lt_trans hj hn) (le_of_lt hj)] at hr
    have : (j : Int) = r := by simpa using hr
    omega
  · intro pre post id _ hreg hlen hid
    rcases registered_run pre Engine.fresh id hreg with h1 | h1
    · simp [Engine.registered, Engine.find, Engine.fresh] at h1
    · obtain ⟨j, hj⟩ := List.mem_iff_getElem?.1 h1
      have hjlen : j < (Engine.fresh.spawned pre).length := by
        by_contra hc
        rw [List.getElem?_eq_none (not_lt.1 hc)] at hj
        exact Option.noConfusion hj
      rw [hget pre j hjlen (by omega)] at hj
      have : (j : Int) = id := by simpa using hj
      omega

/-- A witness for `C8_spawn_returns_counter`: the second spawn of a run with
sends, a poison and worker actions in between returns 1. -/
theorem C8_spawn_returns_counter_witness :
    (Engine.fresh.spawned
        [EngineEvent.spawn, EngineEvent.send 0 (Message.new 42), EngineEvent.work 0,
         EngineEvent.poison 0, EngineEvent.spawn, EngineEvent.spawn])[1]?
      = some ((1 : Nat) : Int) :=
  (C8_spawn_returns_counter
    [EngineEvent.spawn, EngineEvent.send 0 (Message.new 42), EngineEvent.work 0,
     EngineEvent.poison 0, EngineEvent.spawn, EngineEvent.spawn] 1
    (by decide) (by decide)).1

end ActorEngine
